import Mathlib

/-!
Shallow embedding of the classification pipeline of `app.py`
(Low Quality Website Detection Tool).

The pure string logic of the source (`extract_host`, `base_domain`,
`is_trusted`, `label_from_score`, the candidate/loop logic of
`fetch_final`, the risk accumulation of `quick_risk_from_html` and the
orchestration `analyze_target`) is translated directly.  External
library behaviour is modelled as follows:

* `urllib.parse.urlparse` is modelled by `pyUrlparse`, restricted to the
  two fields the source reads (`netloc`, `path`): scheme splitting at the
  first `:` when the prefix is made of scheme characters, authority
  extraction after `//` up to the first of `/?#`, the fragment/query cut
  for the path, and the `ValueError` raised on a netloc containing `[`
  without `]` (or conversely), modelled as `none`.
* `requests.get` is an oracle `Env.http : String → HttpOutcome` giving,
  per candidate URL, either a response (final URL after redirects, body
  text, status code) or a raised exception with its message.
* BeautifulSoup's `soup.get_text(" ", strip=True)` after decomposing
  `script`/`style`/`noscript` is an oracle `Env.getText : String → String`;
  the whitespace collapsing and lowercasing applied on top of it are
  translated (`collapseWs`, `pyLowerL`).

Python `dict` results are modelled as association lists in insertion
order, so presence and absence of keys is observable.  Character-class
functions (`str.strip`, `str.split`, regex `\s`) are modelled over the
ASCII whitespace characters.
-/

/-- ASCII whitespace, the characters matched by Python's `\s` and split
on by `str.split()` in the ASCII range. -/
def isPySpace (c : Char) : Bool :=
  c == ' ' || c == '\t' || c == '\n' || c == '\r' || c == '\x0b' || c == '\x0c'

/-- Python `str.lower` (ASCII range). -/
def pyLowerL (l : List Char) : List Char := l.map Char.toLower

/-- Python `str.lower` on strings. -/
def pyLowerS (s : String) : String := ⟨pyLowerL s.toList⟩

/-- Python `str.strip(chars)`: remove characters satisfying `p` from both
ends. -/
def pyStripL (p : Char → Bool) (l : List Char) : List Char :=
  ((l.dropWhile p).reverse.dropWhile p).reverse

/-- Python `str.strip()` (no argument): strip whitespace from both ends. -/
def pyStripWs (l : List Char) : List Char := pyStripL isPySpace l

/-- Python `str.strip()` on strings. -/
def pyStripWsS (s : String) : String := ⟨pyStripWs s.toList⟩

/-- Does `hay` start with `needle`?  (Python `str.startswith`.) -/
def hasPre : List Char → List Char → Bool
  | [], _ => true
  | _ :: _, [] => false
  | a :: as, b :: bs => a == b && hasPre as bs

/-- Does the haystack contain `needle` as a contiguous substring?
(Python `needle in hay`.) -/
def hasSub (needle : List Char) : List Char → Bool
  | [] => hasPre needle []
  | c :: t => hasPre needle (c :: t) || hasSub needle t

/-- Substring test on strings. -/
def hasSubS (needle s : String) : Bool := hasSub needle.toList s.toList

/-- Python `s.split("@")[-1]`: everything after the last `@` (the whole
string when there is none). -/
def afterLastAt (l : List Char) : List Char :=
  (l.reverse.takeWhile (fun c => c != '@')).reverse

/-- Python `s.split(":")[0]`: everything before the first `:`. -/
def beforeFirstColon (l : List Char) : List Char :=
  l.takeWhile (fun c => c != ':')

/-- Python `str.split(sep)` for a one-character separator: keeps empty
fields, `"".split(".") == [""]`. -/
def pySplit (c : Char) : List Char → List (List Char)
  | [] => [[]]
  | x :: xs =>
    match pySplit c xs with
    | [] => [[]]
    | g :: gs => if x = c then [] :: g :: gs else (x :: g) :: gs

/-- Python `sep.join(parts)` for a one-character separator. -/
def pyJoin (c : Char) : List (List Char) → List Char
  | [] => []
  | [p] => p
  | p :: ps => p ++ c :: pyJoin c ps

/-- Python `re.sub(r"\s+", " ", s)`: collapse every maximal whitespace
run into a single space. -/
def collapseWs : List Char → List Char
  | [] => []
  | [c] => if isPySpace c then [' '] else [c]
  | c :: d :: t =>
    if isPySpace c && isPySpace d then collapseWs (d :: t)
    else (if isPySpace c then ' ' else c) :: collapseWs (d :: t)

/-- Helper for `pySplitWs`: current (reversed) token in the accumulator. -/
def splitWsAux : List Char → List Char → List (List Char)
  | [], acc => if acc.isEmpty then [] else [acc.reverse]
  | c :: t, acc =>
    if isPySpace c then
      (if acc.isEmpty then splitWsAux t [] else acc.reverse :: splitWsAux t [])
    else splitWsAux t (c :: acc)

/-- Python `str.split()` (no argument): whitespace-separated tokens, no
empty fields. -/
def pySplitWs (l : List Char) : List (List Char) := splitWsAux l []

/-- Characters allowed in a URL scheme by `urllib.parse`. -/
def scheme_chars : List Char :=
  ("abcdefghijklmnopqrstuvwxyzABCDEFGHIJKLMNOPQRSTUVWXYZ0123456789+-.").toList

/-- The two fields of `urlparse`'s result that the source reads. -/
structure UrlParts where
  netloc : List Char
  path : List Char
  deriving DecidableEq

/-- Scheme splitting of `urllib.parse`: cut at the first `:` when the
prefix before it is nonempty and made of scheme characters. -/
def splitScheme (l : List Char) : List Char :=
  match l.findIdx? (fun c => c == ':') with
  | none => l
  | some i =>
    if i != 0 && (l.take i).all (fun c => scheme_chars.contains c)
    then l.drop (i+1) else l

/-- Remove the fragment (first, at `#`) then the query (at `?`), as
`urllib.parse` does to obtain the path. -/
def stripFragQuery (l : List Char) : List Char :=
  (l.takeWhile (fun c => c != '#')).takeWhile (fun c => c != '?')

/-- Model of `urllib.parse.urlparse`, restricted to `netloc` and `path`:
after scheme splitting, a string starting with `//` has its authority
read up to the first of `/?#`; a netloc containing `[` without `]` (or
conversely) raises `ValueError`, modelled as `none`. -/
def pyUrlparse (url : String) : Option UrlParts :=
  let u := splitScheme url.toList
  if u.take 2 = ['/', '/'] then
    let rest := u.drop 2
    let netloc := rest.takeWhile (fun c => c != '/' && c != '?' && c != '#')
    let after := rest.dropWhile (fun c => c != '/' && c != '?' && c != '#')
    if (netloc.contains '[') != (netloc.contains ']') then none
    else some ⟨netloc, stripFragQuery after⟩
  else some ⟨[], stripFragQuery u⟩

/-- The static allowlist `TRUSTED` of the source. -/
def TRUSTED : List String :=
  ["youtube.com", "instagram.com", "facebook.com",
   "google.com", "amazon.com", "linkedin.com",
   "capitaloneshopping.com", "retailmenot.com",
   "ebay.com", "walmart.com", "target.com", "bestbuy.com"]

/-- The string actually passed to `urlparse` by `extract_host`: the
stripped input, prefixed with `https://` when it has no scheme separator. -/
def s_for_parse (s : String) : String :=
  if hasSubS "://" s then s else "https://" ++ s

/-- The `except` fallback of `extract_host`:
`s.lower().strip().strip("/")`. -/
def eh_fallback (s : String) : String :=
  ⟨pyStripL (fun c => c == '/') (pyStripWs (pyLowerL s.toList))⟩

/-- `extract_host` of the source: accepts domain, full URL, or messy
input; returns the hostname. -/
def extract_host (user_input : String) : String :=
  let s := pyStripWsS user_input
  if s = "" then ""
  else
    match pyUrlparse (s_for_parse s) with
    | some p =>
      let host0 := pyStripWs (if p.netloc ≠ [] then p.netloc else p.path)
      let host1 := beforeFirstColon (afterLastAt host0)
      let host2 := pyStripL (fun c => c == '/') (pyStripWs host1)
      ⟨pyLowerL host2⟩
    | none => eh_fallback s

/-- `host.lower().strip(".")`, the cleaned host inside `base_domain`. -/
def bdClean (host : String) : List Char :=
  pyStripL (fun c => c == '.') (pyLowerL host.toList)

/-- The label list `parts` inside `base_domain`. -/
def bdParts (host : String) : List (List Char) :=
  pySplit '.' (bdClean host)

/-- The `two_part_tlds` table of the source. -/
def two_part_tlds : List (String × String) :=
  [("co", "uk"), ("org", "uk"), ("ac", "uk"), ("gov", "uk"),
   ("com", "au"), ("net", "au"), ("org", "au"), ("co", "in")]

/-- `base_domain` of the source: crude eTLD+1.  `parts[-1]`, `parts[-2]`,
`parts[-3]` are read off the reversed label list. -/
def base_domain (host : String) : String :=
  let h := bdClean host
  let parts := bdParts host
  if parts.length ≤ 2 then ⟨h⟩
  else
    match parts.reverse with
    | p1 :: p2 :: p3 :: _ =>
      if two_part_tlds.contains (⟨p2⟩, ⟨p1⟩) then ⟨pyJoin '.' [p3, p2, p1]⟩
      else ⟨pyJoin '.' [p2, p1]⟩
    | _ => ⟨h⟩

/-- `is_trusted` of the source. -/
def is_trusted (host : String) : Bool :=
  let h := extract_host host
  let b := base_domain h
  TRUSTED.contains h || TRUSTED.contains b

/-- Outcome of one `requests.get` call: a response (final URL after
redirects, body text, status code) or a raised exception message. -/
inductive HttpOutcome where
  | resp (url : String) (text : String) (status : Nat)
  | exc (msg : String)
  deriving DecidableEq

/-- The external world: the HTTP client and BeautifulSoup's visible-text
extraction (`get_text(" ", strip=True)` after decomposing
`script`/`style`/`noscript`). -/
structure Env where
  http : String → HttpOutcome
  getText : String → String

/-- Result of `fetch_final`: `(final_url, html, None)` on success,
`(None, None, error)` on failure. -/
inductive FetchResult where
  | ok (final_url : String) (html : String)
  | err (msg : String)
  deriving DecidableEq

/-- The error string recorded in `last_err` for a failed candidate. -/
def errOf : HttpOutcome → String
  | .resp _ _ status => "HTTP " ++ toString status
  | .exc msg => msg

/-- Does this outcome fail the source's acceptance test
`r.status_code < 400 and r.text`? -/
def httpFails : HttpOutcome → Bool
  | .resp _ text status => !(decide (status < 400) && !(text == ""))
  | .exc _ => true

/-- The `for u in candidates` loop of `fetch_final`. -/
def fetch_loop (http : String → HttpOutcome) : Option String → List String → FetchResult
  | last_err, [] =>
    .err ("Cannot access website (" ++
      (match last_err with | some e => e | none => "None") ++ ")")
  | _, u :: rest =>
    match http u with
    | .resp url text status =>
      if status < 400 ∧ text ≠ "" then .ok url text
      else fetch_loop http (some ("HTTP " ++ toString status)) rest
    | .exc msg => fetch_loop http (some msg) rest

/-- The candidate URL list built by `fetch_final`. -/
def candidates_for (url_or_host host : String) : List String :=
  (if hasSubS "://" url_or_host then [pyStripWsS url_or_host] else []) ++
    ["https://" ++ host ++ "/", "http://" ++ host ++ "/"]

/-- `fetch_final` of the source. -/
def fetch_final (env : Env) (url_or_host : String) : FetchResult :=
  let host := extract_host url_or_host
  if host = "" then .err "Empty input"
  else fetch_loop env.http none (candidates_for url_or_host host)

/-- A value in the signals dict: boolean or numeric. -/
inductive SigVal where
  | b (x : Bool)
  | i (x : Int)
  deriving DecidableEq

/-- The signals dict, in insertion order. -/
abbrev Signals := List (String × SigVal)

/-- Return value of `quick_risk_from_html`. -/
structure QuickRisk where
  risk : Nat
  signals : Signals
  deriving DecidableEq

/-- The cleaned page text of `quick_risk_from_html`:
`re.sub(r"\s+", " ", soup.get_text(" ", strip=True)).lower()`. -/
def cleanText (env : Env) (html : String) : List Char :=
  pyLowerL (collapseWs ((env.getText html).toList))

/-- `len(text.split())`, the word count of the cleaned text. -/
def wordCountOf (env : Env) (html : String) : Nat :=
  (pySplitWs (cleanText env html)).length

/-- `"lorem ipsum" in text or "dolor sit amet" in text`. -/
def hasLorem (env : Env) (html : String) : Bool :=
  hasSub ("lorem ipsum").toList (cleanText env html) ||
    hasSub ("dolor sit amet").toList (cleanText env html)

/-- `quick_risk_from_html` of the source: thin-content and lorem-ipsum
heuristics, risk accumulator plus signals. -/
def quick_risk_from_html (env : Env) (html : String) : QuickRisk :=
  let text := cleanText env html
  let risk : Nat := 0
  let signals : Signals := []
  let wc := (pySplitWs text).length
  let signals := signals ++ [("word_count", SigVal.i wc)]
  let risk := if wc < 200 then risk + 20 else risk
  let signals :=
    if wc < 200 then signals ++ [("thin_content", SigVal.b true)]
    else signals ++ [("thin_content", SigVal.b false)]
  let lorem := hasSub ("lorem ipsum").toList text ||
    hasSub ("dolor sit amet").toList text
  let risk := if lorem then risk + 30 else risk
  let signals :=
    if lorem then signals ++ [("lorem_ipsum", SigVal.b true)]
    else signals ++ [("lorem_ipsum", SigVal.b false)]
  { risk := risk, signals := signals }

/-- `(final_url or "").lower().startswith("https://")`. -/
def startsHttps (u : String) : Bool :=
  hasPre ("https://").toList (pyLowerL u.toList)

/-- `label_from_score` of the source. -/
def label_from_score (score : Int) : String :=
  if score < 50 then "LOW_QUALITY"
  else if score < 60 then "SUSPICIOUS"
  else if score > 70 then "GOOD_SAFE"
  else "SUSPICIOUS"

/-- A value in a result dict. -/
inductive PyVal where
  | vStr (s : String)
  | vInt (n : Int)
  | vBool (b : Bool)
  | vSig (s : Signals)
  deriving DecidableEq

/-- `analyze_target` of the source; the returned dict is the association
list of its fields in insertion order. -/
def analyze_target (env : Env) (user_input : String) : List (String × PyVal) :=
  let host := extract_host user_input
  let b := base_domain host
  if is_trusted host then
    [("status", PyVal.vStr "OK"), ("input", PyVal.vStr user_input),
     ("host", PyVal.vStr host), ("base_domain", PyVal.vStr b),
     ("final_url", PyVal.vStr ("https://" ++ host ++ "/")),
     ("final_host", PyVal.vStr host), ("final_base_domain", PyVal.vStr b),
     ("forced_good", PyVal.vBool true), ("score", PyVal.vInt 90),
     ("label", PyVal.vStr "GOOD_SAFE"),
     ("reason", PyVal.vStr "Trusted allowlist matched")]
  else
    match fetch_final env user_input with
    | .err e =>
      [("status", PyVal.vStr "ERROR"), ("input", PyVal.vStr user_input),
       ("host", PyVal.vStr host), ("base_domain", PyVal.vStr b),
       ("error", PyVal.vStr e)]
    | .ok final_url html =>
      let final_host := extract_host final_url
      let final_base := base_domain final_host
      if is_trusted final_host then
        [("status", PyVal.vStr "OK"), ("input", PyVal.vStr user_input),
         ("host", PyVal.vStr host), ("base_domain", PyVal.vStr b),
         ("final_url", PyVal.vStr final_url),
         ("final_host", PyVal.vStr final_host),
         ("final_base_domain", PyVal.vStr final_base),
         ("forced_good", PyVal.vBool true), ("score", PyVal.vInt 90),
         ("label", PyVal.vStr "GOOD_SAFE"),
         ("reason", PyVal.vStr "Final redirected domain is trusted")]
      else
        let res := quick_risk_from_html env html
        let no_https := !(startsHttps final_url)
        let risk := res.risk + (if no_https then 25 else 0)
        let signals := res.signals ++ [("no_https", SigVal.b no_https)]
        let score : Int := max 0 (100 - (risk : Int))
        let label := label_from_score score
        [("status", PyVal.vStr "OK"), ("input", PyVal.vStr user_input),
         ("host", PyVal.vStr host), ("base_domain", PyVal.vStr b),
         ("final_url", PyVal.vStr final_url),
         ("final_host", PyVal.vStr final_host),
         ("final_base_domain", PyVal.vStr final_base),
         ("forced_good", PyVal.vBool false), ("score", PyVal.vInt score),
         ("label", PyVal.vStr label), ("signals", PyVal.vSig signals),
         ("reason", PyVal.vStr ("Risk points: " ++ toString risk ++
           ". Evaluated final URL + root domain context."))]

/-- The total risk points of the content-scoring path: scorer risk plus
25 when the final URL's scheme is not https. -/
def total_risk (env : Env) (html final_url : String) : Nat :=
  (quick_risk_from_html env html).risk +
    (if !(startsHttps final_url) then 25 else 0)

/-- The score of the content-scoring path: `max(0, 100 - risk)`. -/
def content_score (env : Env) (html final_url : String) : Int :=
  max 0 (100 - (total_risk env html final_url : Int))

/-- Is the named signal of the content scorer the boolean `true`? -/
def sigTrue (env : Env) (html : String) (name : String) : Prop :=
  ((quick_risk_from_html env html).signals).lookup name = some (SigVal.b true)

/-- Environment whose HTTP client always raises. -/
def envExc : Env :=
  { http := fun _ => .exc "boom", getText := fun _ => "" }

/-- Environment whose HTTP client always lands on a trusted final URL. -/
def envRedir : Env :=
  { http := fun _ => .resp "https://youtube.com/watch" "<p>video</p>" 200,
    getText := fun _ => "video" }

/-- Environment for the content-scoring path: plain-http final URL and a
thin page. -/
def envScore : Env :=
  { http := fun _ => .resp "http://final.example/" "<p>one two three</p>" 200,
    getText := fun _ => "one two three" }

/-- Environment whose HTTP client lands on the degenerate final URL
`https:///x/y.youtube.com` (empty authority, host hidden in the path). -/
def envWeird : Env :=
  { http := fun _ => .resp "https:///x/y.youtube.com" "<p>page text</p>" 200,
    getText := fun _ => "page text" }

-- Sanity checks of the embedding on concrete inputs.
example : extract_host "youtube.com" = "youtube.com" := by decide
example : extract_host "https://user:pw@Sub.Example.com:8080/a/b?q=1#f" = "sub.example.com" := by decide
example : base_domain "www.example.co.uk" = "example.co.uk" := by decide
example : base_domain "a.b.example.com" = "example.com" := by decide
example : is_trusted "https://www.youtube.com/watch?v=1" = true := by decide
example : is_trusted "example.com" = false := by decide
example : extract_host "https:///x/y.youtube.com" = "x/y.youtube.com" := by decide
example : pyUrlparse "https://[x.com" = none := by decide
example : label_from_score 70 = "SUSPICIOUS" := by decide

/-! ## Branch lemmas for `analyze_target` -/

/-- Trusted fast-path branch of `analyze_target`. -/
theorem analyze_target_of_trusted (env : Env) (input : String)
    (h : is_trusted (extract_host input) = true) :
    analyze_target env input =
      [("status", PyVal.vStr "OK"), ("input", PyVal.vStr input),
       ("host", PyVal.vStr (extract_host input)),
       ("base_domain", PyVal.vStr (base_domain (extract_host input))),
       ("final_url", PyVal.vStr ("https://" ++ extract_host input ++ "/")),
       ("final_host", PyVal.vStr (extract_host input)),
       ("final_base_domain", PyVal.vStr (base_domain (extract_host input))),
       ("forced_good", PyVal.vBool true), ("score", PyVal.vInt 90),
       ("label", PyVal.vStr "GOOD_SAFE"),
       ("reason", PyVal.vStr "Trusted allowlist matched")] := by
  simp only [analyze_target, h, if_true]

/-- Fetch-failure branch of `analyze_target`. -/
theorem analyze_target_of_err (env : Env) (input e : String)
    (h1 : is_trusted (extract_host input) = false)
    (h2 : fetch_final env input = FetchResult.err e) :
    analyze_target env input =
      [("status", PyVal.vStr "ERROR"), ("input", PyVal.vStr input),
       ("host", PyVal.vStr (extract_host input)),
       ("base_domain", PyVal.vStr (base_domain (extract_host input))),
       ("error", PyVal.vStr e)] := by
  simp only [analyze_target, h1, h2, Bool.false_eq_true, if_false]

/-- Redirect-trusted branch of `analyze_target`. -/
theorem analyze_target_of_redirect (env : Env) (input url html : String)
    (h1 : is_trusted (extract_host input) = false)
    (h2 : fetch_final env input = FetchResult.ok url html)
    (h3 : is_trusted (extract_host url) = true) :
    analyze_target env input =
      [("status", PyVal.vStr "OK"), ("input", PyVal.vStr input),
       ("host", PyVal.vStr (extract_host input)),
       ("base_domain", PyVal.vStr (base_domain (extract_host input))),
       ("final_url", PyVal.vStr url),
       ("final_host", PyVal.vStr (extract_host url)),
       ("final_base_domain", PyVal.vStr (base_domain (extract_host url))),
       ("forced_good", PyVal.vBool true), ("score", PyVal.vInt 90),
       ("label", PyVal.vStr "GOOD_SAFE"),
       ("reason", PyVal.vStr "Final redirected domain is trusted")] := by
  simp only [analyze_target, h1, h2, h3, Bool.false_eq_true, if_false, if_true]

/-- Content-scoring branch of `analyze_target`. -/
theorem analyze_target_of_scoring (env : Env) (input url html : String)
    (h1 : is_trusted (extract_host input) = false)
    (h2 : fetch_final env input = FetchResult.ok url html)
    (h3 : is_trusted (extract_host url) = false) :
    analyze_target env input =
      [("status", PyVal.vStr "OK"), ("input", PyVal.vStr input),
       ("host", PyVal.vStr (extract_host input)),
       ("base_domain", PyVal.vStr (base_domain (extract_host input))),
       ("final_url", PyVal.vStr url),
       ("final_host", PyVal.vStr (extract_host url)),
       ("final_base_domain", PyVal.vStr (base_domain (extract_host url))),
       ("forced_good", PyVal.vBool false),
       ("score", PyVal.vInt (content_score env html url)),
       ("label", PyVal.vStr (label_from_score (content_score env html url))),
       ("signals", PyVal.vSig ((quick_risk_from_html env html).signals ++
          [("no_https", SigVal.b (!(startsHttps url)))])),
       ("reason", PyVal.vStr ("Risk points: " ++ toString (total_risk env html url) ++
          ". Evaluated final URL + root domain context."))] := by
  simp only [analyze_target, h1, h2, h3, Bool.false_eq_true, if_false]
  rfl

/-- C1: the label mapping from score is exactly: `score < 50` yields
LOW_QUALITY; `50 ≤ score < 60` yields SUSPICIOUS; `score > 70` yields
GOOD_SAFE; every score in `[60, 70]` (including 70) yields SUSPICIOUS;
in particular 49 gives LOW_QUALITY, 50, 59, 60 and 70 give SUSPICIOUS,
and 71 and 100 give GOOD_SAFE. -/
theorem label_from_score_spec (s : Int) :
    (s < 50 → label_from_score s = "LOW_QUALITY") ∧
    (50 ≤ s → s < 60 → label_from_score s = "SUSPICIOUS") ∧
    (70 < s → label_from_score s = "GOOD_SAFE") ∧
    (60 ≤ s → s ≤ 70 → label_from_score s = "SUSPICIOUS") ∧
    label_from_score 49 = "LOW_QUALITY" ∧ label_from_score 50 = "SUSPICIOUS" ∧
    label_from_score 59 = "SUSPICIOUS" ∧ label_from_score 60 = "SUSPICIOUS" ∧
    label_from_score 70 = "SUSPICIOUS" ∧ label_from_score 71 = "GOOD_SAFE" ∧
    label_from_score 100 = "GOOD_SAFE" := by
  refine ⟨fun h => ?_, fun h1 h2 => ?_, fun h => ?_, fun h1 h2 => ?_,
    by decide, by decide, by decide, by decide, by decide, by decide, by decide⟩ <;>
  · unfold label_from_score
    split_ifs <;> first | rfl | omega

/-- Witness for C1 at concrete scores. -/
theorem label_from_score_spec_w :
    label_from_score 55 = "SUSPICIOUS" ∧ label_from_score 40 = "LOW_QUALITY" :=
  ⟨(label_from_score_spec 55).2.1 (by decide) (by decide),
   (label_from_score_spec 40).1 (by decide)⟩

/-- C9: `extract_host` is total by construction (it is a Lean function on
all of `String`); blank (empty or whitespace-only) input returns the
empty string, and when `urlparse` raises (modelled by `pyUrlparse`
returning `none`) the result degrades to lowercasing and trimming the
stripped raw input (`s.lower().strip().strip("/")`) instead of erroring. -/
theorem extract_host_total_spec (input : String) :
    (pyStripWsS input = "" → extract_host input = "") ∧
    (pyUrlparse (s_for_parse (pyStripWsS input)) = none →
      extract_host input = eh_fallback (pyStripWsS input)) := by
  constructor
  · intro h
    simp only [extract_host, h, if_pos]
  · intro h
    by_cases hs : pyStripWsS input = ""
    · exfalso
      rw [hs] at h
      exact absurd h (by decide)
    · simp only [extract_host, hs, if_false, h]

/-- Witness for C9: a whitespace-only input and an input whose netloc
has an unbalanced bracket (urlparse `ValueError`). -/
theorem extract_host_total_spec_w :
    (pyStripWsS "   " = "" ∧ extract_host "   " = "") ∧
    (pyUrlparse (s_for_parse (pyStripWsS "https://[x.com")) = none ∧
      extract_host "https://[x.com" = eh_fallback (pyStripWsS "https://[x.com")) :=
  ⟨⟨by decide, (extract_host_total_spec "   ").1 (by decide)⟩,
   ⟨by decide, (extract_host_total_spec "https://[x.com").2 (by decide)⟩⟩

/-- C2 (amended): for every input on which `is_trusted` holds of the
normalized host — i.e. the host re-normalized by a second
`extract_host` pass, or that re-normalized host's root domain, is a
member of the static allowlist — `analyze_target` returns status OK
with label GOOD_SAFE, score 90, `forced_good = true` and reason
"Trusted allowlist matched", and the result is independent of the
environment: the fetcher is never invoked. -/
theorem analyze_trusted_fast_path (env : Env) (input : String)
    (h : is_trusted (extract_host input) = true) :
    analyze_target env input =
      [("status", PyVal.vStr "OK"), ("input", PyVal.vStr input),
       ("host", PyVal.vStr (extract_host input)),
       ("base_domain", PyVal.vStr (base_domain (extract_host input))),
       ("final_url", PyVal.vStr ("https://" ++ extract_host input ++ "/")),
       ("final_host", PyVal.vStr (extract_host input)),
       ("final_base_domain", PyVal.vStr (base_domain (extract_host input))),
       ("forced_good", PyVal.vBool true), ("score", PyVal.vInt 90),
       ("label", PyVal.vStr "GOOD_SAFE"),
       ("reason", PyVal.vStr "Trusted allowlist matched")] ∧
    ∀ env2 : Env, analyze_target env2 input = analyze_target env input := by
  refine ⟨analyze_target_of_trusted env input h, fun env2 => ?_⟩
  rw [analyze_target_of_trusted env2 input h, analyze_target_of_trusted env input h]

/-- Witness for C2 (amended) at the allowlisted input `youtube.com`. -/
theorem analyze_trusted_fast_path_w :
    analyze_target envExc "youtube.com" =
      [("status", PyVal.vStr "OK"), ("input", PyVal.vStr "youtube.com"),
       ("host", PyVal.vStr (extract_host "youtube.com")),
       ("base_domain", PyVal.vStr (base_domain (extract_host "youtube.com"))),
       ("final_url", PyVal.vStr ("https://" ++ extract_host "youtube.com" ++ "/")),
       ("final_host", PyVal.vStr (extract_host "youtube.com")),
       ("final_base_domain", PyVal.vStr (base_domain (extract_host "youtube.com"))),
       ("forced_good", PyVal.vBool true), ("score", PyVal.vInt 90),
       ("label", PyVal.vStr "GOOD_SAFE"),
       ("reason", PyVal.vStr "Trusted allowlist matched")] ∧
    analyze_target envRedir "youtube.com" = analyze_target envExc "youtube.com" :=
  ⟨(analyze_trusted_fast_path envExc "youtube.com" (by decide)).1,
   (analyze_trusted_fast_path envExc "youtube.com" (by decide)).2 envRedir⟩

/-- Counterexample to C2 as stated: for the input
`https:///x/y.youtube.com` (empty authority, host hidden in the path)
the normalized host is `x/y.youtube.com`, whose root domain
`youtube.com` is in the allowlist, yet `is_trusted` re-normalizes the
host, obtains `x`, and the fast path does not fire: with an HTTP client
that always fails the result is an ERROR with no score, and the result
depends on the fetcher. -/
theorem analyze_trusted_fast_path_cex :
    TRUSTED.contains (base_domain (extract_host "https:///x/y.youtube.com")) = true ∧
    (analyze_target envExc "https:///x/y.youtube.com").lookup "status" =
      some (PyVal.vStr "ERROR") ∧
    (analyze_target envExc "https:///x/y.youtube.com").lookup "score" = none ∧
    analyze_target envExc "https:///x/y.youtube.com" ≠
      analyze_target envRedir "https:///x/y.youtube.com" := by decide

/-- C10: when the allowlist fast-path fires, the returned result contains
`final_url` equal to the synthesized string `https://{host}/`,
`final_host` equal to the input host and `final_base_domain` equal to
the input root domain, although no fetch was performed. -/
theorem analyze_trusted_synthesized_finals (env : Env) (input : String)
    (h : is_trusted (extract_host input) = true) :
    (analyze_target env input).lookup "final_url" =
      some (PyVal.vStr ("https://" ++ extract_host input ++ "/")) ∧
    (analyze_target env input).lookup "final_host" =
      some (PyVal.vStr (extract_host input)) ∧
    (analyze_target env input).lookup "final_base_domain" =
      some (PyVal.vStr (base_domain (extract_host input))) := by
  rw [analyze_target_of_trusted env input h]
  exact ⟨rfl, rfl, rfl⟩

/-- Witness for C10 at `youtube.com`. -/
theorem analyze_trusted_synthesized_finals_w :
    (analyze_target envExc "youtube.com").lookup "final_url" =
      some (PyVal.vStr ("https://" ++ extract_host "youtube.com" ++ "/")) ∧
    (analyze_target envExc "youtube.com").lookup "final_host" =
      some (PyVal.vStr (extract_host "youtube.com")) ∧
    (analyze_target envExc "youtube.com").lookup "final_base_domain" =
      some (PyVal.vStr (base_domain (extract_host "youtube.com"))) :=
  analyze_trusted_synthesized_finals envExc "youtube.com" (by decide)

/-- C3 (amended): an OK result of `analyze_target` contains the signals
mapping exactly when it comes from the content-scoring path
(`forced_good = false`); the two forced-good fast paths return OK
results without a signals field. -/
theorem analyze_signals_presence (env : Env) (input : String) :
    (analyze_target env input).lookup "status" = some (PyVal.vStr "OK") →
    ((analyze_target env input).lookup "forced_good" = some (PyVal.vBool true) ∧
      (analyze_target env input).lookup "signals" = none) ∨
    ((analyze_target env input).lookup "forced_good" = some (PyVal.vBool false) ∧
      ∃ s, (analyze_target env input).lookup "signals" = some (PyVal.vSig s)) := by
  cases hT : is_trusted (extract_host input) with
  | true =>
    rw [analyze_target_of_trusted env input hT]
    intro _
    exact Or.inl ⟨rfl, rfl⟩
  | false =>
    cases hF : fetch_final env input with
    | err e =>
      rw [analyze_target_of_err env input e hT hF]
      intro h
      have h' : (some (PyVal.vStr "ERROR") : Option PyVal) = some (PyVal.vStr "OK") := h
      exact absurd h' (by decide)
    | ok url html =>
      cases hT2 : is_trusted (extract_host url) with
      | true =>
        rw [analyze_target_of_redirect env input url html hT hF hT2]
        intro _
        exact Or.inl ⟨rfl, rfl⟩
      | false =>
        rw [analyze_target_of_scoring env input url html hT hF hT2]
        intro _
        exact Or.inr ⟨rfl, ⟨_, rfl⟩⟩

/-- Witness for C3 (amended): a content-scoring run whose OK result
carries signals. -/
theorem analyze_signals_presence_w :
    ((analyze_target envScore "example.com").lookup "forced_good" =
        some (PyVal.vBool true) ∧
      (analyze_target envScore "example.com").lookup "signals" = none) ∨
    ((analyze_target envScore "example.com").lookup "forced_good" =
        some (PyVal.vBool false) ∧
      ∃ s, (analyze_target envScore "example.com").lookup "signals" =
        some (PyVal.vSig s)) :=
  analyze_signals_presence envScore "example.com" (by decide)

/-- Counterexample to C3 as stated: the forced-good allowlist result for
`youtube.com` has status OK but no signals field. -/
theorem analyze_signals_presence_cex :
    (analyze_target envExc "youtube.com").lookup "status" = some (PyVal.vStr "OK") ∧
    (analyze_target envExc "youtube.com").lookup "signals" = none := by decide

/-- C4 (amended): if the input host is not trusted, the fetch succeeds,
and `is_trusted` holds of the final host — i.e. the final host
re-normalized by a second `extract_host` pass, or that re-normalized
host's root domain, is in the allowlist — then `analyze_target` returns
status OK with label GOOD_SAFE, score 90, `forced_good = true` and
reason "Final redirected domain is trusted", with no signals field:
content scoring does not run. -/
theorem analyze_redirect_fast_path (env : Env) (input url html : String)
    (h1 : is_trusted (extract_host input) = false)
    (h2 : fetch_final env input = FetchResult.ok url html)
    (h3 : is_trusted (extract_host url) = true) :
    analyze_target env input =
      [("status", PyVal.vStr "OK"), ("input", PyVal.vStr input),
       ("host", PyVal.vStr (extract_host input)),
       ("base_domain", PyVal.vStr (base_domain (extract_host input))),
       ("final_url", PyVal.vStr url),
       ("final_host", PyVal.vStr (extract_host url)),
       ("final_base_domain", PyVal.vStr (base_domain (extract_host url))),
       ("forced_good", PyVal.vBool true), ("score", PyVal.vInt 90),
       ("label", PyVal.vStr "GOOD_SAFE"),
       ("reason", PyVal.vStr "Final redirected domain is trusted")] ∧
    (analyze_target env input).lookup "signals" = none := by
  refine ⟨analyze_target_of_redirect env input url html h1 h2 h3, ?_⟩
  rw [analyze_target_of_redirect env input url html h1 h2 h3]
  rfl

/-- Witness for C4 (amended): `example.com` redirecting to a trusted
final URL. -/
theorem analyze_redirect_fast_path_w :
    analyze_target envRedir "example.com" =
      [("status", PyVal.vStr "OK"), ("input", PyVal.vStr "example.com"),
       ("host", PyVal.vStr (extract_host "example.com")),
       ("base_domain", PyVal.vStr (base_domain (extract_host "example.com"))),
       ("final_url", PyVal.vStr "https://youtube.com/watch"),
       ("final_host", PyVal.vStr (extract_host "https://youtube.com/watch")),
       ("final_base_domain", PyVal.vStr (base_domain (extract_host "https://youtube.com/watch"))),
       ("forced_good", PyVal.vBool true), ("score", PyVal.vInt 90),
       ("label", PyVal.vStr "GOOD_SAFE"),
       ("reason", PyVal.vStr "Final redirected domain is trusted")] :=
  (analyze_redirect_fast_path envRedir "example.com" "https://youtube.com/watch"
    "<p>video</p>" (by decide) (by decide) (by decide)).1

/-- Counterexample to C4 as stated: fetching `example.com` in an
environment whose client reports the degenerate final URL
`https:///x/y.youtube.com` — whose normalized host `x/y.youtube.com`
has root domain `youtube.com`, in the allowlist — does not take the
redirect fast path: `is_trusted` re-normalizes the final host to `x`,
content scoring runs, and the result has `forced_good = false` and
score 80, not 90. -/
theorem analyze_redirect_fast_path_cex :
    is_trusted (extract_host "example.com") = false ∧
    fetch_final envWeird "example.com" =
      FetchResult.ok "https:///x/y.youtube.com" "<p>page text</p>" ∧
    TRUSTED.contains (base_domain (extract_host "https:///x/y.youtube.com")) = true ∧
    (analyze_target envWeird "example.com").lookup "forced_good" =
      some (PyVal.vBool false) ∧
    (analyze_target envWeird "example.com").lookup "score" =
      some (PyVal.vInt 80) ∧
    (analyze_target envWeird "example.com").lookup "reason" ≠
      some (PyVal.vStr "Final redirected domain is trusted") := by decide

/-! ## Content scorer -/

/-- Closed form of `quick_risk_from_html`: risk decomposition and the
explicit signals list. -/
theorem quick_risk_spec (env : Env) (html : String) :
    (quick_risk_from_html env html).risk =
      (if wordCountOf env html < 200 then 20 else 0) +
        (if hasLorem env html then 30 else 0) ∧
    (quick_risk_from_html env html).signals =
      [("word_count", SigVal.i (wordCountOf env html)),
       ("thin_content", SigVal.b (decide (wordCountOf env html < 200))),
       ("lorem_ipsum", SigVal.b (hasLorem env html))] := by
  simp only [quick_risk_from_html, wordCountOf, hasLorem]
  rcases Bool.eq_false_or_eq_true (hasSub ("lorem ipsum").toList (cleanText env html)) with hA | hA <;>
  rcases Bool.eq_false_or_eq_true (hasSub ("dolor sit amet").toList (cleanText env html)) with hB | hB <;>
  by_cases h1 : (pySplitWs (cleanText env html)).length < 200 <;>
  simp only [hA, hB] <;> simp [h1]

/-- C6: for every HTML input, the content scorer's risk points equal
(20 if the cleaned visible text has fewer than 200 whitespace-separated
words, else 0) plus (30 if the cleaned lowercased text contains
"lorem ipsum" or "dolor sit amet", else 0), and its signals map always
contains `word_count` as a number together with the booleans
`thin_content` and `lorem_ipsum`. -/
theorem quick_risk_from_html_spec (env : Env) (html : String) :
    (quick_risk_from_html env html).risk =
      (if wordCountOf env html < 200 then 20 else 0) +
        (if hasLorem env html then 30 else 0) ∧
    ((quick_risk_from_html env html).signals).lookup "word_count" =
      some (SigVal.i (wordCountOf env html)) ∧
    ((quick_risk_from_html env html).signals).lookup "thin_content" =
      some (SigVal.b (decide (wordCountOf env html < 200))) ∧
    ((quick_risk_from_html env html).signals).lookup "lorem_ipsum" =
      some (SigVal.b (hasLorem env html)) := by
  obtain ⟨h1, h2⟩ := quick_risk_spec env html
  refine ⟨h1, ?_, ?_, ?_⟩ <;> rw [h2] <;> rfl

/-- C5: in the content-scoring path the returned score equals
`content_score`, which is `max 0 (100 - totalRiskPoints)` with
`totalRiskPoints` the scorer's risk plus 25 when the final URL's scheme
is not https; and the score is monotone non-increasing in the set of
triggered risk signals: if every signal triggered in the first
configuration is also triggered in the second, the second score is not
larger. -/
theorem analyze_score_formula_monotone :
    (∀ (env : Env) (input url html : String),
      is_trusted (extract_host input) = false →
      fetch_final env input = FetchResult.ok url html →
      is_trusted (extract_host url) = false →
      (analyze_target env input).lookup "score" =
        some (PyVal.vInt (content_score env html url)) ∧
      content_score env html url = max 0 (100 - (total_risk env html url : Int)) ∧
      total_risk env html url = (quick_risk_from_html env html).risk +
        (if !(startsHttps url) then 25 else 0)) ∧
    (∀ (e1 : Env) (m1 u1 : String) (e2 : Env) (m2 u2 : String),
      (sigTrue e1 m1 "thin_content" → sigTrue e2 m2 "thin_content") →
      (sigTrue e1 m1 "lorem_ipsum" → sigTrue e2 m2 "lorem_ipsum") →
      (startsHttps u1 = false → startsHttps u2 = false) →
      content_score e2 m2 u2 ≤ content_score e1 m1 u1) := by
  constructor
  · intro env input url html hA hB hC
    rw [analyze_target_of_scoring env input url html hA hB hC]
    exact ⟨rfl, rfl, rfl⟩
  · intro e1 m1 u1 e2 m2 u2 ht hl hs
    have q1 := quick_risk_spec e1 m1
    have q2 := quick_risk_spec e2 m2
    have ht' : wordCountOf e1 m1 < 200 → wordCountOf e2 m2 < 200 := by
      intro h
      have s1 : sigTrue e1 m1 "thin_content" := by
        unfold sigTrue
        rw [q1.2]
        show some (SigVal.b (decide (wordCountOf e1 m1 < 200))) = some (SigVal.b true)
        simp [h]
      have s2 := ht s1
      unfold sigTrue at s2
      rw [q2.2] at s2
      have s2' : (some (SigVal.b (decide (wordCountOf e2 m2 < 200))) : Option SigVal) =
        some (SigVal.b true) := s2
      simpa using s2'
    have hl' : hasLorem e1 m1 = true → hasLorem e2 m2 = true := by
      intro h
      have s1 : sigTrue e1 m1 "lorem_ipsum" := by
        unfold sigTrue
        rw [q1.2]
        show some (SigVal.b (hasLorem e1 m1)) = some (SigVal.b true)
        rw [h]
      have s2 := hl s1
      unfold sigTrue at s2
      rw [q2.2] at s2
      have s2' : (some (SigVal.b (hasLorem e2 m2)) : Option SigVal) =
        some (SigVal.b true) := s2
      simpa using s2'
    have key : total_risk e1 m1 u1 ≤ total_risk e2 m2 u2 := by
      unfold total_risk
      rw [q1.1, q2.1]
      have A : (if wordCountOf e1 m1 < 200 then 20 else 0) ≤
          (if wordCountOf e2 m2 < 200 then (20 : Nat) else 0) := by
        rcases Nat.lt_or_ge (wordCountOf e1 m1) 200 with c | c
        · rw [if_pos c, if_pos (ht' c)]
        · rw [if_neg (Nat.not_lt.mpr c)]
          exact Nat.zero_le _
      have B : (if hasLorem e1 m1 then 30 else 0) ≤
          (if hasLorem e2 m2 then (30 : Nat) else 0) := by
        by_cases c : hasLorem e1 m1 = true
        · rw [if_pos c, if_pos (hl' c)]
        · rw [if_neg c]
          exact Nat.zero_le _
      have C : (if !(startsHttps u1) then 25 else 0) ≤
          (if !(startsHttps u2) then (25 : Nat) else 0) := by
        by_cases c : startsHttps u1 = false
        · have c2 := hs c
          rw [c, c2]
        · have c1 : startsHttps u1 = true := by
            revert c
            cases startsHttps u1 <;> simp
          rw [c1]
          simp
      exact Nat.add_le_add (Nat.add_le_add A B) C
    unfold content_score
    rw [max_def, max_def]
    split_ifs <;> omega

/-- Witness for C5: a thin plain-http page scores
`max 0 (100 - (20 + 25)) = 55`. -/
theorem analyze_score_formula_monotone_w :
    (analyze_target envScore "example.com").lookup "score" =
      some (PyVal.vInt (content_score envScore "<p>one two three</p>" "http://final.example/")) ∧
    content_score envScore "<p>one two three</p>" "http://final.example/" = 55 :=
  ⟨(analyze_score_formula_monotone.1 envScore "example.com" "http://final.example/"
      "<p>one two three</p>" (by decide) (by decide) (by decide)).1,
   by decide⟩

/-! ## Fetch failure -/

/-- The candidate list of `fetch_final` is never empty. -/
theorem candidates_for_ne_nil (input host : String) : candidates_for input host ≠ [] := by
  unfold candidates_for
  split_ifs <;> simp

/-- A failing candidate advances the fetch loop, recording its error. -/
theorem fetch_loop_step (http : String → HttpOutcome) (le : Option String)
    (u : String) (rest : List String) (hu : httpFails (http u) = true) :
    fetch_loop http le (u :: rest) = fetch_loop http (some (errOf (http u))) rest := by
  cases hc : http u with
  | resp url text status =>
    have hcond : ¬(status < 400 ∧ text ≠ "") := by
      intro hAnd
      rw [hc] at hu
      simp [httpFails, hAnd.1, hAnd.2] at hu
    simp only [fetch_loop, hc, errOf]
    rw [if_neg hcond]
  | exc msg => simp only [fetch_loop, hc, errOf]

/-- When every candidate fails, the loop reports the last candidate's
error inside the composite message. -/
theorem fetch_loop_all_fail (http : String → HttpOutcome) (cs : List String)
    (le : Option String) (h0 : cs ≠ [])
    (hf : ∀ u ∈ cs, httpFails (http u) = true) :
    fetch_loop http le cs =
      FetchResult.err ("Cannot access website (" ++ errOf (http (cs.getLast h0)) ++ ")") := by
  induction cs generalizing le with
  | nil => exact absurd rfl h0
  | cons u rest ih =>
    rw [fetch_loop_step http le u rest (hf u (List.mem_cons_self u rest))]
    cases rest with
    | nil => rfl
    | cons v rest' =>
      have h1 : v :: rest' ≠ [] := by simp
      exact ih (some (errOf (http u))) h1 (fun x hx => hf x (List.mem_cons_of_mem u hx))

/-- C7: `analyze_target` returns status ERROR exactly when the input is
untrusted and the fetch fails; the ERROR result carries the error
message and has no score or label fields; a blank input yields the
message "Empty input"; and when every URL candidate fails, the message
is "Cannot access website (...)" wrapping the last candidate's
underlying error. -/
theorem analyze_error_spec (env : Env) (input : String) :
    ((analyze_target env input).lookup "status" = some (PyVal.vStr "ERROR") ↔
      (is_trusted (extract_host input) = false ∧
        ∃ e, fetch_final env input = FetchResult.err e)) ∧
    (∀ e, is_trusted (extract_host input) = false →
      fetch_final env input = FetchResult.err e →
      (analyze_target env input).lookup "error" = some (PyVal.vStr e) ∧
      (analyze_target env input).lookup "score" = none ∧
      (analyze_target env input).lookup "label" = none) ∧
    (pyStripWsS input = "" →
      fetch_final env input = FetchResult.err "Empty input" ∧
      (analyze_target env input).lookup "error" = some (PyVal.vStr "Empty input")) ∧
    (extract_host input ≠ "" →
      (∀ u ∈ candidates_for input (extract_host input), httpFails (env.http u) = true) →
      fetch_final env input = FetchResult.err ("Cannot access website (" ++
        errOf (env.http ((candidates_for input (extract_host input)).getLast
          (candidates_for_ne_nil input (extract_host input)))) ++ ")")) := by
  refine ⟨?_, ?_, ?_, ?_⟩
  · cases hT : is_trusted (extract_host input) with
    | true =>
      rw [analyze_target_of_trusted env input hT]
      constructor
      · intro h
        have h' : (some (PyVal.vStr "OK") : Option PyVal) = some (PyVal.vStr "ERROR") := h
        exact absurd h' (by decide)
      · rintro ⟨hf, -⟩
        exact absurd hf (by decide)
    | false =>
      cases hF : fetch_final env input with
      | err e =>
        rw [analyze_target_of_err env input e hT hF]
        exact ⟨fun _ => ⟨rfl, e, rfl⟩, fun _ => rfl⟩
      | ok url html =>
        have hNoErr : ¬∃ e, FetchResult.ok url html = FetchResult.err e := by
          rintro ⟨e, he⟩
          exact FetchResult.noConfusion he
        cases hT2 : is_trusted (extract_host url) with
        | true =>
          rw [analyze_target_of_redirect env input url html hT hF hT2]
          constructor
          · intro h
            have h' : (some (PyVal.vStr "OK") : Option PyVal) = some (PyVal.vStr "ERROR") := h
            exact absurd h' (by decide)
          · rintro ⟨-, e, he⟩
            exact absurd ⟨e, he⟩ hNoErr
        | false =>
          rw [analyze_target_of_scoring env input url html hT hF hT2]
          constructor
          · intro h
            have h' : (some (PyVal.vStr "OK") : Option PyVal) = some (PyVal.vStr "ERROR") := h
            exact absurd h' (by decide)
          · rintro ⟨-, e, he⟩
            exact absurd ⟨e, he⟩ hNoErr
  · intro e hT hF
    rw [analyze_target_of_err env input e hT hF]
    exact ⟨rfl, rfl, rfl⟩
  · intro hb
    have hh : extract_host input = "" := by
      simp only [extract_host, hb, if_pos]
    have hfe : fetch_final env input = FetchResult.err "Empty input" := by
      simp only [fetch_final, hh, if_pos]
    refine ⟨hfe, ?_⟩
    have hT : is_trusted (extract_host input) = false := by
      rw [hh]
      decide
    rw [analyze_target_of_err env input "Empty input" hT hfe]
    rfl
  · intro h0 hfail
    simp only [fetch_final]
    rw [if_neg h0]
    exact fetch_loop_all_fail env.http _ none (candidates_for_ne_nil input (extract_host input)) hfail

/-- Witness for C7: a blank input and an input on which every candidate
raises. -/
theorem analyze_error_spec_w :
    (fetch_final envExc "   " = FetchResult.err "Empty input" ∧
      (analyze_target envExc "   ").lookup "error" = some (PyVal.vStr "Empty input")) ∧
    fetch_final envExc "example.com" = FetchResult.err ("Cannot access website (" ++
      errOf (envExc.http ((candidates_for "example.com" (extract_host "example.com")).getLast
        (candidates_for_ne_nil "example.com" (extract_host "example.com")))) ++ ")") :=
  ⟨(analyze_error_spec envExc "   ").2.2.1 (by decide),
   (analyze_error_spec envExc "example.com").2.2.2 (by decide) (by decide)⟩

/-! ## Root-domain idempotence -/

/-- `String.toList` of a constructed string. -/
theorem toList_mk (l : List Char) : (⟨l⟩ : String).toList = l := rfl

/-- `Char.ofNat` of a code point below the surrogate range. -/
theorem char_toNat_ofNat (n : Nat) (h : n < 55296) : (Char.ofNat n).toNat = n := by
  have hv : n.isValidChar := Or.inl h
  unfold Char.ofNat
  rw [dif_pos hv]
  rfl

/-- `Char.toLower` is idempotent. -/
theorem toLower_idem (c : Char) : (c.toLower).toLower = c.toLower := by
  simp only [Char.toLower]
  by_cases h : c.toNat ≥ 65 ∧ c.toNat ≤ 90
  · rw [if_pos h, char_toNat_ofNat (c.toNat + 32) (by omega)]
    rw [if_neg (by omega)]
  · rw [if_neg h, if_neg h]

/-- Characters of a lowercased list are fixed by `Char.toLower`. -/
theorem mem_pyLowerL_fixed {l : List Char} {x : Char} (hx : x ∈ pyLowerL l) :
    Char.toLower x = x := by
  obtain ⟨y, -, rfl⟩ := List.mem_map.mp hx
  exact toLower_idem y

/-- Mapping a function that fixes every element is the identity. -/
theorem map_fixed {f : Char → Char} : ∀ {l : List Char}, (∀ x ∈ l, f x = x) → l.map f = l
  | [], _ => rfl
  | x :: xs, h => by
    rw [List.map_cons, h x (List.mem_cons_self x xs),
      map_fixed (fun y hy => h y (List.mem_cons_of_mem x hy))]

/-- Stripping only removes characters: membership is preserved. -/
theorem mem_of_mem_pyStripL {p : Char → Bool} {l : List Char} {x : Char}
    (hx : x ∈ pyStripL p l) : x ∈ l := by
  unfold pyStripL at hx
  rw [List.mem_reverse] at hx
  have h2 := (List.dropWhile_sublist p).subset hx
  rw [List.mem_reverse] at h2
  exact (List.dropWhile_sublist p).subset h2

/-- A split never produces the empty list of parts. -/
theorem pySplit_ne_nil (c : Char) (l : List Char) : pySplit c l ≠ [] := by
  cases l with
  | nil => simp [pySplit]
  | cons x xs =>
    cases hsp : pySplit c xs with
    | nil => simp [pySplit, hsp]
    | cons g gs =>
      simp only [pySplit, hsp]
      by_cases hx : x = c <;> simp [hx]

/-- The separator never occurs inside a part of the split. -/
theorem pySplit_mem_not {c : Char} : ∀ {l : List Char} {p : List Char},
    p ∈ pySplit c l → c ∉ p
  | [], p, hp => by
    simp [pySplit] at hp
    simp [hp]
  | x :: xs, p, hp => by
    cases hsp : pySplit c xs with
    | nil => exact absurd hsp (pySplit_ne_nil c xs)
    | cons g gs =>
      simp only [pySplit, hsp] at hp
      by_cases hx : x = c
      · rw [if_pos hx] at hp
        rcases List.mem_cons.mp hp with rfl | hmem
        · simp
        · exact pySplit_mem_not (hsp ▸ hmem)
      · rw [if_neg hx] at hp
        rcases List.mem_cons.mp hp with rfl | hmem
        · intro hc
          rcases List.mem_cons.mp hc with rfl | hc2
          · exact hx rfl
          · exact pySplit_mem_not (hsp ▸ List.mem_cons_self g gs) hc2
        · exact pySplit_mem_not (hsp ▸ List.mem_cons_of_mem g hmem)

/-- Characters of a part of the split are characters of the input. -/
theorem pySplit_sub {c : Char} : ∀ {l p : List Char} {x : Char},
    p ∈ pySplit c l → x ∈ p → x ∈ l
  | [], p, x, hp, hx => by
    simp [pySplit] at hp
    subst hp
    simp at hx
  | y :: ys, p, x, hp, hx => by
    cases hsp : pySplit c ys with
    | nil => exact absurd hsp (pySplit_ne_nil c ys)
    | cons g gs =>
      simp only [pySplit, hsp] at hp
      by_cases hy : y = c
      · rw [if_pos hy] at hp
        rcases List.mem_cons.mp hp with rfl | hmem
        · simp at hx
        · exact List.mem_cons_of_mem y (pySplit_sub (hsp ▸ hmem) hx)
      · rw [if_neg hy] at hp
        rcases List.mem_cons.mp hp with rfl | hmem
        · rcases List.mem_cons.mp hx with rfl | hx2
          · exact List.mem_cons_self x ys
          · exact List.mem_cons_of_mem y
              (pySplit_sub (hsp ▸ List.mem_cons_self g gs) hx2)
        · exact List.mem_cons_of_mem y (pySplit_sub (hsp ▸ List.mem_cons_of_mem g hmem) hx)

/-- Joining the split of a list gives the list back. -/
theorem pyJoin_pySplit (c : Char) : ∀ l : List Char, pyJoin c (pySplit c l) = l
  | [] => rfl
  | x :: xs => by
    have ih := pyJoin_pySplit c xs
    cases hsp : pySplit c xs with
    | nil => exact absurd hsp (pySplit_ne_nil c xs)
    | cons g gs =>
      rw [hsp] at ih
      simp only [pySplit, hsp]
      by_cases hx : x = c
      · rw [if_pos hx]
        subst hx
        cases gs with
        | nil => simp [pyJoin] at ih ⊢; exact ih
        | cons g2 gs2 => simpa [pyJoin] using ih
      · rw [if_neg hx]
        cases gs with
        | nil => simp [pyJoin] at ih ⊢; exact ih
        | cons g2 gs2 => simpa [pyJoin] using ih

/-- Splitting a list that starts with a separator-free part. -/
theorem pySplit_leadPart (c : Char) : ∀ (a t : List Char), c ∉ a →
    pySplit c (a ++ c :: t) = a :: pySplit c t
  | [], t, _ => by
    cases hsp : pySplit c t with
    | nil => exact absurd hsp (pySplit_ne_nil c t)
    | cons g gs =>
      simp only [List.nil_append, pySplit, hsp]
      simp
  | y :: ys, t, ha => by
    have hy : y ≠ c := fun e => ha (e ▸ List.mem_cons_self y ys)
    have hys : c ∉ ys := fun e => ha (List.mem_cons_of_mem y e)
    rw [List.cons_append]
    simp only [pySplit, pySplit_leadPart c ys t hys]
    rw [if_neg hy]

/-- Splitting a separator-free list. -/
theorem pySplit_single (c : Char) : ∀ (a : List Char), c ∉ a → pySplit c a = [a]
  | [], _ => rfl
  | y :: ys, ha => by
    have hy : y ≠ c := fun e => ha (e ▸ List.mem_cons_self y ys)
    have hys : c ∉ ys := fun e => ha (List.mem_cons_of_mem y e)
    simp only [pySplit, pySplit_single c ys hys]
    rw [if_neg hy]

/-- Splitting the join of separator-free parts gives the parts back. -/
theorem pySplit_pyJoin (c : Char) : ∀ ps : List (List Char), ps ≠ [] →
    (∀ p ∈ ps, c ∉ p) → pySplit c (pyJoin c ps) = ps
  | [], h0, _ => absurd rfl h0
  | [p], _, h2 => by
    show pySplit c p = [p]
    exact pySplit_single c p (h2 p (List.mem_singleton.mpr rfl))
  | p :: q :: rest, _, h2 => by
    show pySplit c (p ++ c :: pyJoin c (q :: rest)) = p :: q :: rest
    rw [pySplit_leadPart c p _ (h2 p (List.mem_cons_self p (q :: rest)))]
    rw [pySplit_pyJoin c (q :: rest) (List.cons_ne_nil q rest)
      (fun x hx => h2 x (List.mem_cons_of_mem p hx))]

/-- Lowercasing the join of parts whose characters are already fixed. -/
theorem pyLowerL_pyJoin : ∀ ps : List (List Char),
    (∀ p ∈ ps, ∀ x ∈ p, Char.toLower x = x) →
    pyLowerL (pyJoin '.' ps) = pyJoin '.' ps
  | [], _ => rfl
  | [p], h3 => map_fixed (h3 p (List.mem_singleton.mpr rfl))
  | p :: q :: rest, h3 => by
    show pyLowerL (p ++ '.' :: pyJoin '.' (q :: rest)) = _
    unfold pyLowerL
    rw [List.map_append, List.map_cons]
    rw [map_fixed (h3 p (List.mem_cons_self p (q :: rest)))]
    rw [show Char.toLower '.' = '.' from by decide]
    have ih := pyLowerL_pyJoin (q :: rest) (fun x hx => h3 x (List.mem_cons_of_mem p hx))
    unfold pyLowerL at ih
    rw [ih]
    rfl

/-- A strip is the identity when neither end satisfies the predicate. -/
theorem pyStripL_eq_self (p : Char → Bool) (l : List Char)
    (hh : ∀ a, l.head? = some a → p a = false)
    (hl : ∀ a, l.getLast? = some a → p a = false) :
    pyStripL p l = l := by
  have d1 : l.dropWhile p = l := by
    cases l with
    | nil => rfl
    | cons a t =>
      rw [List.dropWhile_cons, hh a rfl]
      simp
  have d2 : l.reverse.dropWhile p = l.reverse := by
    cases hr : l.reverse with
    | nil => rfl
    | cons a t =>
      have ha : l.getLast? = some a := by
        rw [List.getLast?_eq_head?_reverse, hr]
        rfl
      rw [List.dropWhile_cons, hl a ha]
      simp
  unfold pyStripL
  rw [d1, d2, List.reverse_reverse]

/-- The join of nonempty parts starting at `p` is nonempty. -/
theorem pyJoin_cons_ne_nil {c : Char} {p : List Char} {rest : List (List Char)}
    (hp : p ≠ []) : pyJoin c (p :: rest) ≠ [] := by
  cases rest with
  | nil => simpa [pyJoin] using hp
  | cons q rest2 =>
    show p ++ c :: pyJoin c (q :: rest2) ≠ []
    simp

/-- The last character of a join of nonempty parts lies in one of the
parts. -/
theorem getLast?_pyJoin_mem : ∀ (ps : List (List Char)),
    (∀ p ∈ ps, p ≠ []) → ∀ {a : Char},
    (pyJoin '.' ps).getLast? = some a → ∃ p ∈ ps, a ∈ p
  | [], _, a, ha => by simp [pyJoin] at ha
  | [p], _, a, ha => by
    refine ⟨p, List.mem_singleton.mpr rfl, ?_⟩
    obtain ⟨h, rfl⟩ := List.mem_getLast?_eq_getLast ha
    exact List.getLast_mem h
  | p :: q :: rest2, h1, a, ha => by
    rw [show pyJoin '.' (p :: q :: rest2) = p ++ '.' :: pyJoin '.' (q :: rest2) from rfl] at ha
    rw [List.getLast?_append_cons] at ha
    have hqne : pyJoin '.' (q :: rest2) ≠ [] :=
      pyJoin_cons_ne_nil (h1 q (List.mem_cons_of_mem p (List.mem_cons_self q rest2)))
    obtain ⟨b, bs, hb⟩ : ∃ b bs, pyJoin '.' (q :: rest2) = b :: bs := by
      cases hj : pyJoin '.' (q :: rest2) with
      | nil => exact absurd hj hqne
      | cons b bs => exact ⟨b, bs, rfl⟩
    rw [hb, List.getLast?_cons_cons, ← hb] at ha
    obtain ⟨p', hp', ha'⟩ := getLast?_pyJoin_mem (q :: rest2)
      (fun x hx => h1 x (List.mem_cons_of_mem p hx)) ha
    exact ⟨p', List.mem_cons_of_mem p hp', ha'⟩

/-- Stripping dots is the identity on a join of nonempty dot-free parts. -/
theorem pyStripL_pyJoin (ps : List (List Char)) (h0 : ps ≠ [])
    (h1 : ∀ p ∈ ps, p ≠ []) (h2 : ∀ p ∈ ps, ('.' : Char) ∉ p) :
    pyStripL (fun c => c == '.') (pyJoin '.' ps) = pyJoin '.' ps := by
  apply pyStripL_eq_self
  · intro a ha
    obtain ⟨p, rest, rfl⟩ : ∃ p rest, ps = p :: rest := by
      cases ps with
      | nil => exact absurd rfl h0
      | cons p rest => exact ⟨p, rest, rfl⟩
    have hp := h1 p (List.mem_cons_self p rest)
    have hpj : (pyJoin '.' (p :: rest)).head? = p.head? := by
      cases rest with
      | nil => rfl
      | cons q rest2 =>
        show (p ++ '.' :: pyJoin '.' (q :: rest2)).head? = p.head?
        cases p with
        | nil => exact absurd rfl hp
        | cons b bs => rfl
    rw [hpj] at ha
    have hb : a ∈ p := by
      cases p with
      | nil => simp at ha
      | cons b bs =>
        simp only [List.head?_cons, Option.some.injEq] at ha
        exact List.mem_cons.mpr (Or.inl ha.symm)
    have hnd := h2 p (List.mem_cons_self p rest)
    exact beq_eq_false_iff_ne.mpr (fun e => hnd (e ▸ hb))
  · intro a ha
    obtain ⟨p, hp, hap⟩ := getLast?_pyJoin_mem ps h1 ha
    exact beq_eq_false_iff_ne.mpr (fun e => h2 p hp (e ▸ hap))

/-- On a join of nonempty, dot-free, lowercase-fixed parts, `bdClean` is
the identity and `bdParts` recovers the parts. -/
theorem base_domain_join (ps : List (List Char)) (h0 : ps ≠ [])
    (h1 : ∀ p ∈ ps, p ≠ []) (h2 : ∀ p ∈ ps, ('.' : Char) ∉ p)
    (h3 : ∀ p ∈ ps, ∀ x ∈ p, Char.toLower x = x) :
    bdClean ⟨pyJoin '.' ps⟩ = pyJoin '.' ps ∧ bdParts ⟨pyJoin '.' ps⟩ = ps := by
  have hlow := pyLowerL_pyJoin ps h3
  have hstrip := pyStripL_pyJoin ps h0 h1 h2
  have hclean : bdClean ⟨pyJoin '.' ps⟩ = pyJoin '.' ps := by
    unfold bdClean
    rw [toList_mk, hlow, hstrip]
  refine ⟨hclean, ?_⟩
  unfold bdParts
  rw [hclean]
  exact pySplit_pyJoin '.' ps h0 h2

/-- C8 (amended): `base_domain` is idempotent on every hostname whose
dot-separated labels (after lowercasing and trimming outer dots) are all
nonempty; a host with an empty interior label can gain a leading dot in
the two-part-TLD branch, which the second application then strips. -/
theorem base_domain_idempotent (host : String)
    (H : ∀ p ∈ bdParts host, p ≠ ([] : List Char)) :
    base_domain (base_domain host) = base_domain host := by
  have hne : bdParts host ≠ [] := pySplit_ne_nil '.' (bdClean host)
  have hnd : ∀ p ∈ bdParts host, ('.' : Char) ∉ p := fun p hp => pySplit_mem_not hp
  have hfix : ∀ p ∈ bdParts host, ∀ x ∈ p, Char.toLower x = x := by
    intro p hp x hx
    have h1 : x ∈ bdClean host := pySplit_sub hp hx
    have h2 : x ∈ pyLowerL host.toList := mem_of_mem_pyStripL h1
    exact mem_pyLowerL_fixed h2
  have hjoin : pyJoin '.' (bdParts host) = bdClean host := pyJoin_pySplit '.' (bdClean host)
  by_cases hlen : (bdParts host).length ≤ 2
  · have hbd : base_domain host = ⟨bdClean host⟩ := by
      simp only [base_domain]
      rw [if_pos hlen]
    rw [hbd, ← hjoin]
    obtain ⟨hc, hp⟩ := base_domain_join (bdParts host) hne H hnd hfix
    simp only [base_domain, hp]
    rw [if_pos hlen, hc]
  · obtain ⟨p1, p2, p3, rest, hrev⟩ :
        ∃ p1 p2 p3 rest, (bdParts host).reverse = p1 :: p2 :: p3 :: rest := by
      have hlr : 2 < (bdParts host).reverse.length := by
        rw [List.length_reverse]
        omega
      rcases hr : (bdParts host).reverse with _ | ⟨a1, _ | ⟨a2, _ | ⟨a3, r⟩⟩⟩ <;>
        rw [hr] at hlr
      · simp at hlr
      · simp at hlr
      · simp at hlr
      · exact ⟨a1, a2, a3, r, rfl⟩
    have hmem1 : p1 ∈ bdParts host := by
      rw [← List.mem_reverse, hrev]
      simp
    have hmem2 : p2 ∈ bdParts host := by
      rw [← List.mem_reverse, hrev]
      simp
    have hmem3 : p3 ∈ bdParts host := by
      rw [← List.mem_reverse, hrev]
      simp
    have hbd : base_domain host =
        if two_part_tlds.contains (⟨p2⟩, ⟨p1⟩) then (⟨pyJoin '.' [p3, p2, p1]⟩ : String)
        else ⟨pyJoin '.' [p2, p1]⟩ := by
      simp only [base_domain]
      rw [if_neg hlen, hrev]
    by_cases htld : two_part_tlds.contains (⟨p2⟩, ⟨p1⟩) = true
    · rw [hbd, if_pos htld]
      have h0' : ([p3, p2, p1] : List (List Char)) ≠ [] := by simp
      have h1' : ∀ p ∈ ([p3, p2, p1] : List (List Char)), p ≠ [] := by
        intro p hp
        rcases List.mem_cons.mp hp with rfl | hp
        · exact H p hmem3
        rcases List.mem_cons.mp hp with rfl | hp
        · exact H p hmem2
        rcases List.mem_cons.mp hp with rfl | hp
        · exact H p hmem1
        · simp at hp
      have h2' : ∀ p ∈ ([p3, p2, p1] : List (List Char)), ('.' : Char) ∉ p := by
        intro p hp
        rcases List.mem_cons.mp hp with rfl | hp
        · exact hnd p hmem3
        rcases List.mem_cons.mp hp with rfl | hp
        · exact hnd p hmem2
        rcases List.mem_cons.mp hp with rfl | hp
        · exact hnd p hmem1
        · simp at hp
      have h3' : ∀ p ∈ ([p3, p2, p1] : List (List Char)), ∀ x ∈ p, Char.toLower x = x := by
        intro p hp
        rcases List.mem_cons.mp hp with rfl | hp
        · exact hfix p hmem3
        rcases List.mem_cons.mp hp with rfl | hp
        · exact hfix p hmem2
        rcases List.mem_cons.mp hp with rfl | hp
        · exact hfix p hmem1
        · simp at hp
      obtain ⟨hc, hp⟩ := base_domain_join [p3, p2, p1] h0' h1' h2' h3'
      simp only [base_domain, hp]
      rw [if_neg (by simp)]
      show (if two_part_tlds.contains (⟨p2⟩, ⟨p1⟩) then (⟨pyJoin '.' [p3, p2, p1]⟩ : String)
        else ⟨pyJoin '.' [p2, p1]⟩) = ⟨pyJoin '.' [p3, p2, p1]⟩
      rw [if_pos htld]
    · rw [hbd, if_neg htld]
      have h0' : ([p2, p1] : List (List Char)) ≠ [] := by simp
      have h1' : ∀ p ∈ ([p2, p1] : List (List Char)), p ≠ [] := by
        intro p hp
        rcases List.mem_cons.mp hp with rfl | hp
        · exact H p hmem2
        rcases List.mem_cons.mp hp with rfl | hp
        · exact H p hmem1
        · simp at hp
      have h2' : ∀ p ∈ ([p2, p1] : List (List Char)), ('.' : Char) ∉ p := by
        intro p hp
        rcases List.mem_cons.mp hp with rfl | hp
        · exact hnd p hmem2
        rcases List.mem_cons.mp hp with rfl | hp
        · exact hnd p hmem1
        · simp at hp
      have h3' : ∀ p ∈ ([p2, p1] : List (List Char)), ∀ x ∈ p, Char.toLower x = x := by
        intro p hp
        rcases List.mem_cons.mp hp with rfl | hp
        · exact hfix p hmem2
        rcases List.mem_cons.mp hp with rfl | hp
        · exact hfix p hmem1
        · simp at hp
      obtain ⟨hc, hp⟩ := base_domain_join [p2, p1] h0' h1' h2' h3'
      simp only [base_domain, hp]
      rw [if_pos (by simp), hc]

/-- Witness for C8 (amended) at a well-formed two-part-TLD host. -/
theorem base_domain_idempotent_w :
    base_domain (base_domain "www.example.co.uk") = base_domain "www.example.co.uk" :=
  base_domain_idempotent "www.example.co.uk" (by decide)

/-- Counterexample to C8 as stated: the host `a..co.uk` (empty interior
label) maps to `.co.uk`, whose image is `co.uk`, so `base_domain` is not
idempotent on it. -/
theorem base_domain_idempotent_cex :
    base_domain "a..co.uk" = ".co.uk" ∧
    base_domain (base_domain "a..co.uk") = "co.uk" ∧
    base_domain (base_domain "a..co.uk") ≠ base_domain "a..co.uk" := by decide
